import Mathlib

/-!
Shallow embedding of the tan log-store multiplexing layer
(`dbKeeper` / `regularKeeper` / `multiplexedKeeper` / `collection`).

Store handles (`*db` pointers in the source) are modelled as natural-number
ids; a successful engine `open` allocates a fresh id from a counter carried
in the state, mirroring the fact that every successful open in the source
yields a pointer distinct from all previously returned ones.  Go maps are
modelled as association lists with overwrite-on-insert.  Filesystem and
engine-open behaviour is supplied per `getDB` call by a `CallEnv` oracle,
and each call also returns the trace of filesystem/engine operations it
performed, so that "no I/O on a cache hit" style statements are expressible.
-/

namespace Tan

/-- Errors carried by the Go `error` values; the identity of the error is all
that matters for the propagation claims, so a string suffices. -/
abbrev Err := String

/-- Model of `raftio.NodeInfo`: the full Group Identifier (clusterID, nodeID). -/
structure NodeInfo where
  clusterID : Nat
  nodeID : Nat
deriving DecidableEq, Repr

/-- Lookup in an association list modelling a Go map (`m[k]`). -/
def alistGet {α β : Type} [DecidableEq α] : List (α × β) → α → Option β
  | [], _ => none
  | (k', v) :: rest, k => if k' = k then some v else alistGet rest k

/-- Overwrite-insert in an association list modelling a Go map (`m[k] = v`). -/
def alistSet {α β : Type} [DecidableEq α] : List (α × β) → α → β → List (α × β)
  | [], k, v => [(k, v)]
  | (k', v') :: rest, k, v =>
      if k' = k then (k, v) :: rest else (k', v') :: alistSet rest k v

/-- The two `dbKeeper` implementations with their state: `regularKeeper.dbs :
map[raftio.NodeInfo]*db` and `multiplexedKeeper.dbs : map[uint64]*db`. -/
inductive Keeper where
  | regular (dbs : List (NodeInfo × Nat))
  | multiplexed (dbs : List (Nat × Nat))
deriving DecidableEq, Repr

/-- Transcribes `newRegularDBKeeper`: empty regular keeper. -/
def newRegularDBKeeper : Keeper := .regular []

/-- Transcribes `newMultiplexedDBKeeper`: empty multiplexed keeper. -/
def newMultiplexedDBKeeper : Keeper := .multiplexed []

/-- Transcribes `regularKeeper.name`: `fmt.Sprintf("node-%d-%d", clusterID, nodeID)`. -/
def regularName (clusterID nodeID : Nat) : String :=
  "node-" ++ Nat.repr clusterID ++ "-" ++ Nat.repr nodeID

/-- Transcribes `multiplexedKeeper.key`: `clusterID % 16`. -/
def multiplexedKey (clusterID : Nat) : Nat := clusterID % 16

/-- Transcribes `multiplexedKeeper.name`: `fmt.Sprintf("shard-%d", k.key(clusterID))`. -/
def multiplexedName (clusterID _nodeID : Nat) : String :=
  "shard-" ++ Nat.repr (multiplexedKey clusterID)

/-- Transcribes `dbKeeper.multiplexedLog`. -/
def Keeper.multiplexedLog : Keeper → Bool
  | .regular _ => false
  | .multiplexed _ => true

/-- Transcribes the `dbKeeper.name` dispatch. -/
def Keeper.name : Keeper → Nat → Nat → String
  | .regular _, c, n => regularName c n
  | .multiplexed _, c, n => multiplexedName c n

/-- Transcribes the `dbKeeper.key` dispatch.  `regularKeeper.key` panics
(`panic("not suppose to be called")`); the fatal, never-returning call is
modelled as `none`, while `multiplexedKeeper.key` returns `some (c % 16)`. -/
def Keeper.key : Keeper → Nat → Option Nat
  | .regular _, _ => none
  | .multiplexed _, c => some (multiplexedKey c)

/-- Transcribes the `dbKeeper.get` dispatch: the regular keeper looks up the full
`NodeInfo`, the multiplexed keeper looks up `k.key(clusterID)`. -/
def Keeper.get : Keeper → Nat → Nat → Option Nat
  | .regular m, c, n => alistGet m ⟨c, n⟩
  | .multiplexed m, c, _ => alistGet m (multiplexedKey c)

/-- Transcribes the `dbKeeper.set` dispatch: the regular keeper stores under the full
`NodeInfo`, the multiplexed keeper under `k.key(clusterID)`. -/
def Keeper.set : Keeper → Nat → Nat → Nat → Keeper
  | .regular m, c, n, h => .regular (alistSet m ⟨c, n⟩ h)
  | .multiplexed m, c, _, h => .multiplexed (alistSet m (multiplexedKey c) h)

/-- Values (handles) currently stored in the keeper map, in the order of the
modelled map; Go map iteration order is unspecified, and this fixes one
admissible order. -/
def Keeper.vals : Keeper → List Nat
  | .regular m => m.map Prod.snd
  | .multiplexed m => m.map Prod.snd

/-- Result of `c.fs.Stat(dbdir)` as far as `prepareDir` can observe it:
success, an error for which `oserror.IsNotExist` holds, or any other error. -/
inductive StatRes where
  | found
  | notFound
  | otherErr (e : Err)
deriving DecidableEq, Repr

/-- Per-call oracle describing what the filesystem and the engine-open
primitive would do during one `getDB` call: the `Stat` outcome on the store
directory, the `MkdirAll` outcome (consulted only if invoked), and the
`open` outcome (`none` = success, handing out a fresh handle). -/
structure CallEnv where
  stat : StatRes
  mkdir : Option Err
  openRes : Option Err
deriving DecidableEq, Repr

/-- Trace entries for filesystem / engine operations performed by a call. -/
inductive FSOp where
  | statOp (path : String)
  | mkdirAllOp (path : String)
  | openOp (path : String)
deriving DecidableEq, Repr

/-- Transcribes `vfs.FS.PathJoin(dirname, name)`. -/
def pathJoin (dir nm : String) : String := dir ++ "/" ++ nm

/-- Transcribes `collection.prepareDir`:

    if _, err := c.fs.Stat(dbdir); oserror.IsNotExist(err) {
        if err := fileutil.MkdirAll(dbdir, c.fs); err != nil {
            return err
        }
    }
    return nil

Only the not-exist outcome enters the `if` body; a successful stat or a stat
error that is not not-exist falls through to `return nil`.  Returns the
error result together with the trace of filesystem operations performed. -/
def prepareDir (env : CallEnv) (dbdir : String) : Option Err × List FSOp :=
  match env.stat with
  | .notFound =>
      match env.mkdir with
      | some e => (some e, [.statOp dbdir, .mkdirAllOp dbdir])
      | none => (none, [.statOp dbdir, .mkdirAllOp dbdir])
  | _ => (none, [.statOp dbdir])

/-- State of a `collection`: its keeper map plus the fresh-handle counter
modelling pointer freshness of successful `open` calls. -/
structure DBState where
  keeper : Keeper
  nextHandle : Nat
deriving DecidableEq, Repr

/-- Transcribes `collection.getDB`:

    db, ok := c.keeper.get(clusterID, nodeID)
    if ok { return db, nil }
    name := c.keeper.name(clusterID, nodeID)
    dbdir := c.fs.PathJoin(c.dirname, name)
    if err := c.prepareDir(dbdir); err != nil { return nil, err }
    db, err := open(dbdir, dbdir, &Options{FS: c.fs})
    if err != nil { return nil, err }
    c.keeper.set(clusterID, nodeID, db)
    return db, nil

Returns the result, the post state, and the trace of filesystem / engine
operations performed by this call. -/
def getDB (dirname : String) (env : CallEnv) (s : DBState)
    (clusterID nodeID : Nat) : Except Err Nat × DBState × List FSOp :=
  match Keeper.get s.keeper clusterID nodeID with
  | some db => (.ok db, s, [])
  | none =>
    let dbdir := pathJoin dirname (Keeper.name s.keeper clusterID nodeID)
    match prepareDir env dbdir with
    | (some e, ops) => (.error e, s, ops)
    | (none, ops) =>
      match env.openRes with
      | some e => (.error e, s, ops ++ [.openOp dbdir])
      | none =>
        (.ok s.nextHandle,
         ⟨Keeper.set s.keeper clusterID nodeID s.nextHandle, s.nextHandle + 1⟩,
         ops ++ [.openOp dbdir])

/-- Transcribes `collection.key`: passthrough to `c.keeper.key(clusterID)`. -/
def collectionKey (s : DBState) (clusterID : Nat) : Option Nat :=
  Keeper.key s.keeper clusterID

/-- One pass of `dbKeeper.iterate`'s loop body over a list of handles, with
the callback's side effects made explicit as a state transformer
`f : handle → σ → σ × Option Err`:

    for _, db := range k.dbs {
        if err := f(db); err != nil { return err }
    }
    return nil

Returns the error result, the final callback state, and the list of handles
actually visited. -/
def iterOver {σ : Type} (f : Nat → σ → σ × Option Err) :
    List Nat → σ → Option Err × σ × List Nat
  | [], st => (none, st, [])
  | d :: ds, st =>
    match f d st with
    | (st', some e) => (some e, st', [d])
    | (st', none) =>
      match iterOver f ds st' with
      | (r, st'', vs) => (r, st'', d :: vs)

/-- Transcribes `regularKeeper.iterate` / `multiplexedKeeper.iterate`: both range over
the values of the keeper's map. -/
def Keeper.iterate {σ : Type} (k : Keeper) (f : Nat → σ → σ × Option Err)
    (st : σ) : Option Err × σ × List Nat :=
  iterOver f (Keeper.vals k) st

/-- Transcribes `collection.iterate`: passthrough to `c.keeper.iterate(f)`. -/
def collectionIterate {σ : Type} (s : DBState) (f : Nat → σ → σ × Option Err)
    (st : σ) : Option Err × σ × List Nat :=
  Keeper.iterate s.keeper f st

/-! ### Decimal representation of `Nat` (the `%d` verb)

`Nat.repr` is core's decimal printer; the lemmas below characterise it via a
structurally simpler recursion `decChars` so that injectivity of the
`node-<c>-<n>` naming scheme can be established. -/

/-- Decimal digits of `n`, most significant first. -/
def decChars (n : Nat) : List Char :=
  if _h : n < 10 then [Nat.digitChar n]
  else decChars (n / 10) ++ [Nat.digitChar (n % 10)]
decreasing_by exact Nat.div_lt_self (by omega) (by omega)

theorem toDigitsCore_eq_decChars :
    ∀ (fuel n : Nat) (ds : List Char), n < fuel →
      Nat.toDigitsCore 10 fuel n ds = decChars n ++ ds := by
  intro fuel
  induction fuel with
  | zero => intro n ds h; omega
  | succ f ih =>
    intro n ds h
    rw [Nat.toDigitsCore]
    by_cases h10 : n < 10
    · have hdiv : n / 10 = 0 := Nat.div_eq_of_lt h10
      have hmod : n % 10 = n := Nat.mod_eq_of_lt h10
      simp only [hdiv, hmod, if_pos rfl]
      rw [decChars]
      simp [h10]
    · have hdiv : ¬ n / 10 = 0 := by
        intro hz
        have := Nat.div_eq_of_lt (by omega : n < 10)
        omega
      have hdivz : n / 10 ≠ 0 := hdiv
      have hpos : 0 < n := by omega
      have hlt : n / 10 < f := by
        have h1 : n / 10 < n := Nat.div_lt_self hpos (by omega)
        omega
      simp only [if_neg hdivz]
      rw [ih (n / 10) _ hlt]
      conv_rhs => rw [decChars]
      simp [h10, List.append_assoc]

theorem repr_data_eq_decChars (n : Nat) : (Nat.repr n).data = decChars n := by
  have h := toDigitsCore_eq_decChars (n + 1) n [] (Nat.lt_succ_self n)
  simp only [Nat.repr, Nat.toDigits, List.asString]
  rw [h]
  simp

theorem digitChar_ne_dash (k : Nat) (h : k < 10) : Nat.digitChar k ≠ '-' := by
  interval_cases k <;> decide

theorem decChars_ne_dash (n : Nat) : ∀ c ∈ decChars n, c ≠ '-' := by
  induction n using decChars.induct with
  | case1 n h =>
    rw [decChars]
    simp only [dif_pos h, List.mem_singleton]
    rintro c rfl
    exact digitChar_ne_dash n h
  | case2 n h ih =>
    rw [decChars]
    simp only [dif_neg h, List.mem_append, List.mem_singleton]
    rintro c (hc | rfl)
    · exact ih c hc
    · exact digitChar_ne_dash (n % 10) (Nat.mod_lt n (by omega))

/-- Numeric value of a decimal digit character. -/
def digitVal (c : Char) : Nat := c.toNat - '0'.toNat

/-- Decode a list of decimal digit characters, most significant first. -/
def decodeDec (cs : List Char) : Nat :=
  cs.foldl (fun a c => a * 10 + digitVal c) 0

theorem digitVal_digitChar (k : Nat) (h : k < 10) :
    digitVal (Nat.digitChar k) = k := by
  interval_cases k <;> decide

theorem decodeDec_append_singleton (a : List Char) (d : Char) :
    decodeDec (a ++ [d]) = decodeDec a * 10 + digitVal d := by
  simp [decodeDec, List.foldl_append]

theorem decodeDec_decChars (n : Nat) : decodeDec (decChars n) = n := by
  induction n using decChars.induct with
  | case1 n h =>
    rw [decChars]
    simp only [dif_pos h]
    simp [decodeDec, digitVal_digitChar n h]
  | case2 n h ih =>
    rw [decChars]
    simp only [dif_neg h]
    rw [decodeDec_append_singleton, ih,
      digitVal_digitChar (n % 10) (Nat.mod_lt n (by omega))]
    omega

theorem decChars_inj {n1 n2 : Nat} (h : decChars n1 = decChars n2) :
    n1 = n2 := by
  have h1 := decodeDec_decChars n1
  have h2 := decodeDec_decChars n2
  rw [h] at h1
  omega

/-- A list of the form `a ++ '-' :: b` with `a` dash-free determines `a` and
`b` uniquely. -/
theorem append_dash_inj :
    ∀ (a a' b b' : List Char), (∀ c ∈ a, c ≠ '-') → (∀ c ∈ a', c ≠ '-') →
      a ++ '-' :: b = a' ++ '-' :: b' → a = a' ∧ b = b' := by
  intro a
  induction a with
  | nil =>
    intro a' b b' _ ha' h
    cases a' with
    | nil => simpa using h
    | cons x xs =>
      exfalso
      simp only [List.nil_append, List.cons_append, List.cons.injEq] at h
      exact ha' x (by simp) h.1.symm
  | cons x xs ih =>
    intro a' b b' ha ha' h
    cases a' with
    | nil =>
      exfalso
      simp only [List.cons_append, List.nil_append, List.cons.injEq] at h
      exact ha x (by simp) h.1
    | cons y ys =>
      simp only [List.cons_append, List.cons.injEq] at h
      obtain ⟨rfl, htail⟩ := h
      obtain ⟨rfl, rfl⟩ := ih ys b b' (fun c hc => ha c (by simp [hc]))
        (fun c hc => ha' c (by simp [hc])) htail
      exact ⟨rfl, rfl⟩

/-! ### Association-list and `getDB` characterisation lemmas -/

theorem alistGet_alistSet {α β : Type} [DecidableEq α]
    (m : List (α × β)) (k k' : α) (v : β) :
    alistGet (alistSet m k v) k' = if k = k' then some v else alistGet m k' := by
  induction m with
  | nil => simp [alistGet, alistSet]
  | cons p rest ih =>
    obtain ⟨kk, vv⟩ := p
    by_cases hk : kk = k <;> by_cases hk' : kk = k' <;>
      by_cases hkk : k = k' <;> simp_all [alistGet, alistSet]

theorem keeper_get_set_self (k : Keeper) (c n h : Nat) :
    Keeper.get (Keeper.set k c n h) c n = some h := by
  cases k <;> simp [Keeper.get, Keeper.set, alistGet_alistSet]

theorem getDB_hit {d : String} {env : CallEnv} {s : DBState} {c n h : Nat}
    (hget : Keeper.get s.keeper c n = some h) :
    getDB d env s c n = (.ok h, s, []) := by
  simp [getDB, hget]

theorem getDB_ok_cases {d : String} {env : CallEnv} {s : DBState}
    {c n h : Nat} {s' : DBState} {tr : List FSOp}
    (hok : getDB d env s c n = (.ok h, s', tr)) :
    (Keeper.get s.keeper c n = some h ∧ s' = s ∧ tr = []) ∨
    (Keeper.get s.keeper c n = none ∧ h = s.nextHandle ∧
      s' = ⟨Keeper.set s.keeper c n s.nextHandle, s.nextHandle + 1⟩) := by
  obtain ⟨st, mk, op⟩ := env
  cases hget : Keeper.get s.keeper c n <;>
    cases st <;> cases mk <;> cases op <;>
      simp_all [getDB, prepareDir] <;>
        (obtain ⟨rfl, rfl, rfl⟩ := hok; rfl)

theorem getDB_error {d : String} {env : CallEnv} {s : DBState}
    {c n : Nat} {e : Err} {s' : DBState} {tr : List FSOp}
    (herr : getDB d env s c n = (.error e, s', tr)) :
    s' = s ∧ Keeper.get s.keeper c n = none := by
  obtain ⟨st, mk, op⟩ := env
  cases hget : Keeper.get s.keeper c n <;>
    cases st <;> cases mk <;> cases op <;>
      simp_all [getDB, prepareDir]

theorem getDB_ok_get {d : String} {env : CallEnv} {s : DBState}
    {c n h : Nat} {s' : DBState} {tr : List FSOp}
    (hok : getDB d env s c n = (.ok h, s', tr)) :
    Keeper.get s'.keeper c n = some h := by
  rcases getDB_ok_cases hok with ⟨hg, rfl, -⟩ | ⟨-, rfl, rfl⟩
  · exact hg
  · exact keeper_get_set_self s.keeper c n s.nextHandle

theorem getDB_miss_allgood {d : String} {s : DBState} {c n : Nat}
    (hget : Keeper.get s.keeper c n = none) :
    getDB d ⟨.notFound, none, none⟩ s c n =
      (.ok s.nextHandle,
       ⟨Keeper.set s.keeper c n s.nextHandle, s.nextHandle + 1⟩,
       [.statOp (pathJoin d (Keeper.name s.keeper c n)),
        .mkdirAllOp (pathJoin d (Keeper.name s.keeper c n)),
        .openOp (pathJoin d (Keeper.name s.keeper c n))]) := by
  simp [getDB, hget, prepareDir]

theorem regularName_inj {c1 n1 c2 n2 : Nat}
    (h : regularName c1 n1 = regularName c2 n2) : c1 = c2 ∧ n1 = n2 := by
  have hdata : (regularName c1 n1).data = (regularName c2 n2).data := by
    rw [h]
  simp only [regularName, String.data_append, repr_data_eq_decChars] at hdata
  simp only [List.append_assoc, List.cons_append, List.nil_append,
    List.singleton_append, List.cons.injEq, true_and] at hdata
  have hsplit := append_dash_inj (decChars c1) (decChars c2)
    (decChars n1) (decChars n2) (decChars_ne_dash c1) (decChars_ne_dash c2)
    (by simpa using hdata)
  exact ⟨decChars_inj hsplit.1, decChars_inj hsplit.2⟩

/-! ### Claim theorems -/

/-- Reference mod-16 computation following the spec's words "clusterID mod
16": the remainder after removing the largest multiple of 16. -/
def specMod16 (clusterID : Nat) : Nat := clusterID - 16 * (clusterID / 16)

/-- C6: the multiplexed strategy's shard key is the pure function
`clusterID mod 16`: it agrees with the reference mod-16 computation on every
clusterID, is independent of the keeper's stored state, always lies below
16, and matches the reference values at 0, 1, 15, 16, 17 and 2^64 - 1. -/
theorem multiplexedKey_pure_mod16 :
    (∀ c : Nat, multiplexedKey c = specMod16 c) ∧
    (∀ (m : List (Nat × Nat)) (c : Nat),
      Keeper.key (.multiplexed m) c = some (multiplexedKey c)) ∧
    (∀ c : Nat, multiplexedKey c < 16) ∧
    multiplexedKey 0 = 0 ∧ multiplexedKey 1 = 1 ∧ multiplexedKey 15 = 15 ∧
    multiplexedKey 16 = 0 ∧ multiplexedKey 17 = 1 ∧
    multiplexedKey (2 ^ 64 - 1) = 15 := by
  refine ⟨fun c => ?_, fun m c => rfl, fun c => Nat.mod_lt _ (by omega),
    by decide, by decide, by decide, by decide, by decide, by decide⟩
  unfold multiplexedKey specMod16
  have h := Nat.div_add_mod c 16
  omega

/-- C7: the store name is exactly `node-<clusterID>-<nodeID>` (decimal)
under the regular strategy and exactly `shard-<clusterID mod 16>` (decimal,
nodeID ignored) under the multiplexed strategy. -/
theorem storeName_layout :
    (∀ (m : List (NodeInfo × Nat)) (c n : Nat),
      Keeper.name (.regular m) c n = "node-" ++ Nat.repr c ++ "-" ++ Nat.repr n) ∧
    (∀ (m : List (Nat × Nat)) (c n : Nat),
      Keeper.name (.multiplexed m) c n = "shard-" ++ Nat.repr (c % 16)) ∧
    (∀ c n1 n2 : Nat, multiplexedName c n1 = multiplexedName c n2) ∧
    regularName 5 1 = "node-5-1" ∧ regularName 1 23 = "node-1-23" ∧
    multiplexedName 17 3 = "shard-1" ∧ multiplexedName 1 9 = "shard-1" ∧
    multiplexedName 31 0 = "shard-15" := by
  exact ⟨fun m c n => rfl, fun m c n => rfl, fun c n1 n2 => rfl,
    by decide, by decide, by decide, by decide, by decide⟩

/-- C10: `regularKeeper.key` panics for every clusterID (modelled as `none`:
the call never produces a value), and the collection's `key` passthrough
does the same in regular mode; under the multiplexed keeper the passthrough
returns the shard key. -/
theorem regular_shardKey_fatal :
    (∀ (m : List (NodeInfo × Nat)) (c : Nat), Keeper.key (.regular m) c = none) ∧
    (∀ (m : List (NodeInfo × Nat)) (next c : Nat),
      collectionKey ⟨.regular m, next⟩ c = none) ∧
    (∀ (m : List (Nat × Nat)) (next c : Nat),
      collectionKey ⟨.multiplexed m, next⟩ c = some (multiplexedKey c)) :=
  ⟨fun _ _ => rfl, fun _ _ _ => rfl, fun _ _ _ => rfl⟩

/-- C5: when a `getDB` call for a Group Identifier succeeds, a second call
for the same identifier is a pure cache hit: it returns the identical
handle, leaves the state unchanged, and performs no filesystem or engine
operations (empty trace), whatever the second call's environment would do. -/
theorem getStore_idempotent {d : String} {env env2 : CallEnv} {s s' : DBState}
    {c n h : Nat} {tr : List FSOp}
    (h1 : getDB d env s c n = (.ok h, s', tr)) :
    getDB d env2 s' c n = (.ok h, s', []) :=
  getDB_hit (getDB_ok_get h1)

theorem getStore_idempotent_witness :
    getDB "/data" ⟨.found, none, none⟩ ⟨.regular [(⟨5, 1⟩, 0)], 1⟩ 5 1 =
      (.ok 0, ⟨.regular [(⟨5, 1⟩, 0)], 1⟩, []) :=
  getStore_idempotent (by rfl :
    getDB "/data" ⟨.notFound, none, none⟩ ⟨.regular [], 0⟩ 5 1 =
      (.ok 0, ⟨.regular [(⟨5, 1⟩, 0)], 1⟩,
       [.statOp "/data/node-5-1", .mkdirAllOp "/data/node-5-1",
        .openOp "/data/node-5-1"]))

/-- C4: when `getDB` fails (directory preparation or engine open), the state
is unchanged and the lookup key is still absent, and a subsequent call for
the same Group Identifier re-runs the full stat / mkdirAll / open sequence
from scratch (shown here with an environment in which all steps succeed). -/
theorem getStore_failure_no_poison {d : String} {env : CallEnv} {s s' : DBState}
    {c n : Nat} {e : Err} {tr : List FSOp}
    (h1 : getDB d env s c n = (.error e, s', tr)) :
    s' = s ∧ Keeper.get s.keeper c n = none ∧
      getDB d ⟨.notFound, none, none⟩ s' c n =
        (.ok s.nextHandle,
         ⟨Keeper.set s.keeper c n s.nextHandle, s.nextHandle + 1⟩,
         [.statOp (pathJoin d (Keeper.name s.keeper c n)),
          .mkdirAllOp (pathJoin d (Keeper.name s.keeper c n)),
          .openOp (pathJoin d (Keeper.name s.keeper c n))]) := by
  obtain ⟨rfl, hget⟩ := getDB_error h1
  exact ⟨rfl, hget, getDB_miss_allgood hget⟩

theorem getStore_failure_no_poison_witness :
    (⟨Keeper.regular [], 0⟩ : DBState) = ⟨.regular [], 0⟩ ∧
    Keeper.get (Keeper.regular []) 1 1 = none ∧
    getDB "/data" ⟨.notFound, none, none⟩ ⟨.regular [], 0⟩ 1 1 =
      (.ok 0, ⟨.regular [(⟨1, 1⟩, 0)], 1⟩,
       [.statOp "/data/node-1-1", .mkdirAllOp "/data/node-1-1",
        .openOp "/data/node-1-1"]) :=
  getStore_failure_no_poison (by rfl :
    getDB "/data" ⟨.notFound, some "mke", none⟩ ⟨.regular [], 0⟩ 1 1 =
      (.error "mke", ⟨.regular [], 0⟩,
       [.statOp "/data/node-1-1", .mkdirAllOp "/data/node-1-1"]))

/-- C1 as stated is false on the code: with a stat outcome that is an error
other than not-found ("boom"), `getDB` does not return that error to the
caller and does cache a handle — `prepareDir` silently ignores the stat
error and `getDB` proceeds to open the store. -/
theorem claim_C1_counterexample :
    (getDB "/data" ⟨.otherErr "boom", none, none⟩ ⟨.regular [], 0⟩ 1 1).1 ≠
      Except.error "boom" ∧
    Keeper.get
      (getDB "/data" ⟨.otherErr "boom", none, none⟩
        ⟨.regular [], 0⟩ 1 1).2.1.keeper 1 1 = some 0 := by
  constructor
  · intro hcontra
    exact Except.noConfusion hcontra
  · rfl

/-- C1 (amended): only the not-found stat outcome triggers directory
creation; a stat error other than not-found is ignored — `prepareDir`
returns nil after the stat alone, attempting no directory creation — while
any error from directory creation is returned unchanged to the `getDB`
caller with the state unchanged and nothing cached. -/
theorem prepareDir_propagation (d : String) (s : DBState) (c n : Nat)
    (hmiss : Keeper.get s.keeper c n = none) (env : CallEnv) :
    (∀ e, env.stat = .otherErr e →
      prepareDir env (pathJoin d (Keeper.name s.keeper c n)) =
        (none, [.statOp (pathJoin d (Keeper.name s.keeper c n))])) ∧
    (∀ e, env.stat = .notFound → env.mkdir = some e →
      getDB d env s c n =
        (.error e, s,
         [.statOp (pathJoin d (Keeper.name s.keeper c n)),
          .mkdirAllOp (pathJoin d (Keeper.name s.keeper c n))])) ∧
    (∀ dbdir, FSOp.mkdirAllOp dbdir ∈ (prepareDir env dbdir).2 →
      env.stat = .notFound) := by
  obtain ⟨st, mk, op⟩ := env
  refine ⟨?_, ?_, ?_⟩
  · rintro e rfl
    rfl
  · rintro e rfl rfl
    simp [getDB, prepareDir, hmiss]
  · intro dbdir hmem
    cases st <;> simp_all [prepareDir]

theorem prepareDir_propagation_witness :
    getDB "/data" ⟨.notFound, some "mke", none⟩ ⟨.regular [], 0⟩ 1 1 =
      (.error "mke", ⟨.regular [], 0⟩,
       [.statOp (pathJoin "/data" (Keeper.name (Keeper.regular []) 1 1)),
        .mkdirAllOp (pathJoin "/data" (Keeper.name (Keeper.regular []) 1 1))]) :=
  (prepareDir_propagation "/data" ⟨.regular [], 0⟩ 1 1 (by decide)
    ⟨.notFound, some "mke", none⟩).2.1 "mke" rfl rfl

theorem keeper_get_mux_congr {m : List (Nat × Nat)} {c1 n1 c2 n2 : Nat}
    (hmod : c1 % 16 = c2 % 16) :
    Keeper.get (.multiplexed m) c2 n2 = Keeper.get (.multiplexed m) c1 n1 := by
  simp [Keeper.get, multiplexedKey, hmod]

/-- C2: under the multiplexed strategy, Group Identifiers whose clusterIDs
agree mod 16 share the store name, and once a `getDB` call for one of them
has returned a handle, a `getDB` call for the other is a pure cache hit
returning that identical handle. -/
theorem multiplexed_grouping {d : String} {env env2 : CallEnv}
    {m : List (Nat × Nat)} {next : Nat} {s' : DBState}
    {c1 n1 c2 n2 h : Nat} {tr : List FSOp}
    (hmod : c1 % 16 = c2 % 16) :
    multiplexedName c1 n1 = multiplexedName c2 n2 ∧
    (getDB d env ⟨.multiplexed m, next⟩ c1 n1 = (.ok h, s', tr) →
      getDB d env2 s' c2 n2 = (.ok h, s', [])) := by
  constructor
  · simp [multiplexedName, multiplexedKey, hmod]
  · intro h1
    have hget1 : Keeper.get s'.keeper c1 n1 = some h := getDB_ok_get h1
    have hkmux : ∃ m', s'.keeper = Keeper.multiplexed m' := by
      rcases getDB_ok_cases h1 with ⟨-, rfl, -⟩ | ⟨-, -, rfl⟩
      · exact ⟨m, rfl⟩
      · exact ⟨alistSet m (multiplexedKey c1) next, rfl⟩
    obtain ⟨m', hm'⟩ := hkmux
    rw [hm'] at hget1
    have hget2 : Keeper.get s'.keeper c2 n2 = some h := by
      rw [hm', keeper_get_mux_congr hmod]
      exact hget1
    exact getDB_hit hget2

theorem multiplexed_grouping_witness :
    getDB "/data" ⟨.found, none, none⟩ ⟨.multiplexed [(1, 0)], 1⟩ 17 3 =
      (.ok 0, ⟨.multiplexed [(1, 0)], 1⟩, []) :=
  (multiplexed_grouping (by decide : 1 % 16 = 17 % 16)).2 (by rfl :
    getDB "/data" ⟨.notFound, none, none⟩ ⟨.multiplexed [], 0⟩ 1 9 =
      (.ok 0, ⟨.multiplexed [(1, 0)], 1⟩,
       [.statOp "/data/shard-1", .mkdirAllOp "/data/shard-1",
        .openOp "/data/shard-1"]))

/-- Cache-injectivity invariant for a regular-keeper map: every cached
handle lies below the fresh-handle counter, and no two lookup keys resolve
to the same handle. -/
def regInv (m : List (NodeInfo × Nat)) (next : Nat) : Prop :=
  (∀ k h, alistGet m k = some h → h < next) ∧
  (∀ k1 k2 h, alistGet m k1 = some h → alistGet m k2 = some h → k1 = k2)

theorem regInv_set {m : List (NodeInfo × Nat)} {next : Nat}
    (hinv : regInv m next) (k : NodeInfo) :
    regInv (alistSet m k next) (next + 1) := by
  obtain ⟨hbound, hinj⟩ := hinv
  constructor
  · intro k' h hget
    rw [alistGet_alistSet] at hget
    by_cases hk : k = k'
    · rw [if_pos hk] at hget
      injection hget with hh
      omega
    · rw [if_neg hk] at hget
      have := hbound k' h hget
      omega
  · intro k1 k2 h hg1 hg2
    rw [alistGet_alistSet] at hg1 hg2
    by_cases hk1 : k = k1 <;> by_cases hk2 : k = k2
    · rw [← hk1, ← hk2]
    · rw [if_pos hk1] at hg1
      rw [if_neg hk2] at hg2
      injection hg1 with hh
      have := hbound k2 h hg2
      omega
    · rw [if_neg hk1] at hg1
      rw [if_pos hk2] at hg2
      injection hg2 with hh
      have := hbound k1 h hg1
      omega
    · rw [if_neg hk1] at hg1
      rw [if_neg hk2] at hg2
      exact hinj k1 k2 h hg1 hg2

theorem getDB_regular_inv {d : String} {env : CallEnv}
    {m : List (NodeInfo × Nat)} {next : Nat} {c n : Nat}
    {r : Except Err Nat} {s' : DBState} {tr : List FSOp}
    (hinv : regInv m next)
    (hcall : getDB d env ⟨.regular m, next⟩ c n = (r, s', tr)) :
    ∃ m', s'.keeper = .regular m' ∧ regInv m' s'.nextHandle := by
  cases r with
  | error e =>
    obtain ⟨rfl, -⟩ := getDB_error hcall
    exact ⟨m, rfl, hinv⟩
  | ok h =>
    rcases getDB_ok_cases hcall with ⟨-, rfl, -⟩ | ⟨-, -, rfl⟩
    · exact ⟨m, rfl, hinv⟩
    · exact ⟨alistSet m ⟨c, n⟩ next, rfl, regInv_set hinv ⟨c, n⟩⟩

/-- C3: under the regular strategy, distinct Group Identifiers always get
distinct store names, and two successive successful `getDB` calls for
distinct identifiers (from any state satisfying the cache-injectivity
invariant, which the empty collection does) never return the same handle. -/
theorem regular_isolation {d : String} {env1 env2 : CallEnv}
    {m : List (NodeInfo × Nat)} {next : Nat} {c1 n1 c2 n2 h1 h2 : Nat}
    {s1 s2 : DBState} {t1 t2 : List FSOp}
    (hinv : regInv m next)
    (hne : (c1, n1) ≠ (c2, n2))
    (hcall1 : getDB d env1 ⟨.regular m, next⟩ c1 n1 = (.ok h1, s1, t1))
    (hcall2 : getDB d env2 s1 c2 n2 = (.ok h2, s2, t2)) :
    regularName c1 n1 ≠ regularName c2 n2 ∧ h1 ≠ h2 := by
  constructor
  · intro heq
    obtain ⟨hc, hn⟩ := regularName_inj heq
    exact hne (by rw [hc, hn])
  · obtain ⟨m1, hk1, hinv1⟩ := getDB_regular_inv hinv hcall1
    have hget1 : Keeper.get s1.keeper c1 n1 = some h1 := getDB_ok_get hcall1
    rw [hk1] at hget1
    simp only [Keeper.get] at hget1
    rcases getDB_ok_cases hcall2 with ⟨hget2, -, -⟩ | ⟨-, rfl, -⟩
    · rw [hk1] at hget2
      simp only [Keeper.get] at hget2
      intro heq
      rw [heq] at hget1
      have := hinv1.2 ⟨c1, n1⟩ ⟨c2, n2⟩ h2 hget1 hget2
      simp only [NodeInfo.mk.injEq] at this
      exact hne (by rw [this.1, this.2])
    · have := hinv1.1 ⟨c1, n1⟩ h1 hget1
      omega

theorem regular_isolation_witness :
    regularName 5 1 ≠ regularName 5 2 ∧ (0 : Nat) ≠ 1 := by
  have hinv0 : regInv [] 0 := by
    constructor
    · intro k h hg
      simp [alistGet] at hg
    · intro k1 k2 h hg1 hg2
      simp [alistGet] at hg1
  exact regular_isolation hinv0 (by decide)
    (by rfl : getDB "/data" ⟨.notFound, none, none⟩ ⟨.regular [], 0⟩ 5 1 =
      (.ok 0, ⟨.regular [(⟨5, 1⟩, 0)], 1⟩,
       [.statOp "/data/node-5-1", .mkdirAllOp "/data/node-5-1",
        .openOp "/data/node-5-1"]))
    (by rfl : getDB "/data" ⟨.notFound, none, none⟩
        ⟨.regular [(⟨5, 1⟩, 0)], 1⟩ 5 2 =
      (.ok 1, ⟨.regular [(⟨5, 1⟩, 0), (⟨5, 2⟩, 1)], 2⟩,
       [.statOp "/data/node-5-2", .mkdirAllOp "/data/node-5-2",
        .openOp "/data/node-5-2"]))

/-! ### C8: boundedness of the multiplexed registry -/

/-- Keys of the multiplexed keeper map (empty for the regular keeper). -/
def keeperMuxKeys : Keeper → List Nat
  | .regular _ => []
  | .multiplexed m => m.map Prod.fst

/-- Number of entries in the keeper map. -/
def keeperEntries : Keeper → Nat
  | .regular m => m.length
  | .multiplexed m => m.length

/-- Well-formedness of a multiplexed keeper map: all keys below 16, and no
duplicate keys (true of any map, modelled explicitly for association
lists). -/
def muxKeysOK (m : List (Nat × Nat)) : Prop :=
  (∀ p ∈ m, p.1 < 16) ∧ (m.map Prod.fst).Nodup

/-- An operation sequence against the collection: `getStore` calls (with
their per-call filesystem oracle) and direct `register` (keeper `set`)
calls. -/
inductive MuxOp where
  | getStoreOp (env : CallEnv) (clusterID nodeID : Nat)
  | registerOp (clusterID nodeID h : Nat)

/-- Apply one operation to the collection state. -/
def applyMuxOp (d : String) (s : DBState) : MuxOp → DBState
  | .getStoreOp env c n => (getDB d env s c n).2.1
  | .registerOp c n h => ⟨Keeper.set s.keeper c n h, s.nextHandle⟩

/-- Apply a sequence of operations to the collection state. -/
def applyMuxOps (d : String) : DBState → List MuxOp → DBState
  | s, [] => s
  | s, op :: ops => applyMuxOps d (applyMuxOp d s op) ops

theorem mem_map_fst_alistSet {β : Type} (m : List (Nat × β)) (k j : Nat) (v : β) :
    j ∈ (alistSet m k v).map Prod.fst ↔ j = k ∨ j ∈ m.map Prod.fst := by
  induction m with
  | nil => simp [alistSet]
  | cons p rest ih =>
    obtain ⟨kk, vv⟩ := p
    by_cases hk : kk = k
    · subst hk
      simp [alistSet]
    · simp [alistSet, hk, ih]
      tauto

theorem nodup_map_fst_alistSet {β : Type} (m : List (Nat × β)) (k : Nat) (v : β)
    (hnd : (m.map Prod.fst).Nodup) : ((alistSet m k v).map Prod.fst).Nodup := by
  induction m with
  | nil => simp [alistSet]
  | cons p rest ih =>
    obtain ⟨kk, vv⟩ := p
    simp only [List.map_cons, List.nodup_cons] at hnd
    by_cases hk : kk = k
    · subst hk
      simpa [alistSet] using hnd
    · have hgoal : alistSet ((kk, vv) :: rest) k v = (kk, vv) :: alistSet rest k v := by
        simp [alistSet, hk]
      rw [hgoal]
      simp only [List.map_cons, List.nodup_cons]
      refine ⟨?_, ih hnd.2⟩
      rw [mem_map_fst_alistSet]
      rintro (rfl | hmem)
      · exact hk rfl
      · exact hnd.1 hmem

theorem muxKeysOK_set {m : List (Nat × Nat)} {k : Nat} (v : Nat)
    (hok : muxKeysOK m) (hk : k < 16) : muxKeysOK (alistSet m k v) := by
  obtain ⟨hlt, hnd⟩ := hok
  refine ⟨?_, nodup_map_fst_alistSet m k v hnd⟩
  intro p hp
  have hmem : p.1 ∈ (alistSet m k v).map Prod.fst := List.mem_map_of_mem _ hp
  rw [mem_map_fst_alistSet] at hmem
  rcases hmem with rfl | hmem
  · exact hk
  · obtain ⟨q, hq, hqp⟩ := List.mem_map.mp hmem
    rw [← hqp]
    exact hlt q hq

theorem applyMuxOp_mux_inv {d : String} {s : DBState} {m : List (Nat × Nat)}
    (hk : s.keeper = .multiplexed m) (hok : muxKeysOK m) (op : MuxOp) :
    ∃ m', (applyMuxOp d s op).keeper = .multiplexed m' ∧ muxKeysOK m' := by
  cases op with
  | registerOp c n h =>
    refine ⟨alistSet m (multiplexedKey c) h, ?_, ?_⟩
    · simp [applyMuxOp, hk, Keeper.set]
    · exact muxKeysOK_set h hok (Nat.mod_lt _ (by omega))
  | getStoreOp env c n =>
    rcases hcall : getDB d env s c n with ⟨r, s', tr⟩
    have happly : applyMuxOp d s (.getStoreOp env c n) = s' := by
      simp [applyMuxOp, hcall]
    rw [happly]
    cases r with
    | error e =>
      obtain ⟨rfl, -⟩ := getDB_error hcall
      exact ⟨m, hk, hok⟩
    | ok h =>
      rcases getDB_ok_cases hcall with ⟨-, rfl, -⟩ | ⟨-, -, rfl⟩
      · exact ⟨m, hk, hok⟩
      · refine ⟨alistSet m (multiplexedKey c) s.nextHandle, ?_, ?_⟩
        · simp [hk, Keeper.set]
        · exact muxKeysOK_set s.nextHandle hok (Nat.mod_lt _ (by omega))

theorem applyMuxOps_mux_inv {d : String} (ops : List MuxOp) :
    ∀ (s : DBState) (m : List (Nat × Nat)),
      s.keeper = .multiplexed m → muxKeysOK m →
      ∃ m', (applyMuxOps d s ops).keeper = .multiplexed m' ∧ muxKeysOK m' := by
  induction ops with
  | nil => intro s m hk hok; exact ⟨m, hk, hok⟩
  | cons op ops ih =>
    intro s m hk hok
    obtain ⟨m1, hk1, hok1⟩ := applyMuxOp_mux_inv hk hok op
    exact ih (applyMuxOp d s op) m1 hk1 hok1

theorem muxKeysOK_length {m : List (Nat × Nat)} (hok : muxKeysOK m) :
    m.length ≤ 16 := by
  obtain ⟨hlt, hnd⟩ := hok
  have hlen : m.length = (m.map Prod.fst).length := (List.length_map m Prod.fst).symm
  rw [hlen]
  have hsub : (m.map Prod.fst).toFinset ⊆ Finset.range 16 := by
    intro x hx
    rw [List.mem_toFinset] at hx
    obtain ⟨p, hp, rfl⟩ := List.mem_map.mp hx
    exact Finset.mem_range.mpr (hlt p hp)
  calc (m.map Prod.fst).length = (m.map Prod.fst).toFinset.card := by
        rw [List.toFinset_card_of_nodup hnd]
    _ ≤ (Finset.range 16).card := Finset.card_le_card hsub
    _ = 16 := Finset.card_range 16

/-- C8: starting from any well-formed multiplexed collection state (in
particular the empty one), after any sequence of `getStore` and `register`
operations every key stored in the registry map is below 16 and the map
holds at most 16 entries. -/
theorem multiplexed_bounded {d : String} {s : DBState} {m : List (Nat × Nat)}
    (hk : s.keeper = .multiplexed m) (hok : muxKeysOK m) (ops : List MuxOp) :
    (∀ j ∈ keeperMuxKeys (applyMuxOps d s ops).keeper, j < 16) ∧
    keeperEntries (applyMuxOps d s ops).keeper ≤ 16 := by
  obtain ⟨m', hk', hok'⟩ := applyMuxOps_mux_inv ops s m hk hok
  rw [hk']
  constructor
  · intro j hj
    simp only [keeperMuxKeys] at hj
    obtain ⟨p, hp, rfl⟩ := List.mem_map.mp hj
    exact hok'.1 p hp
  · simpa [keeperEntries] using muxKeysOK_length hok'

theorem multiplexed_bounded_witness :
    keeperEntries (applyMuxOps "/data" ⟨.multiplexed [], 0⟩
      [.getStoreOp ⟨.notFound, none, none⟩ 1 9,
       .getStoreOp ⟨.notFound, none, none⟩ 17 3,
       .getStoreOp ⟨.notFound, none, none⟩ 5 2,
       .registerOp 33 4 7]).keeper ≤ 16 :=
  (multiplexed_bounded rfl
    (by constructor
        · intro p hp
          simp at hp
        · simp)
    [.getStoreOp ⟨.notFound, none, none⟩ 1 9,
     .getStoreOp ⟨.notFound, none, none⟩ 17 3,
     .getStoreOp ⟨.notFound, none, none⟩ 5 2,
     .registerOp 33 4 7]).2

/-! ### C9: fail-fast iteration -/

/-- State reached after running the callback over a list of handles in
order (the accumulated side effects of the visited handles). -/
def foldState {σ : Type} (f : Nat → σ → σ × Option Err) (ds : List Nat)
    (st : σ) : σ :=
  ds.foldl (fun s x => (f x s).1) st

theorem iterOver_all_ok {σ : Type} (f : Nat → σ → σ × Option Err) :
    ∀ (ds : List Nat) (st : σ), (∀ x ∈ ds, ∀ s0, (f x s0).2 = none) →
      iterOver f ds st = (none, foldState f ds st, ds) := by
  intro ds
  induction ds with
  | nil => intro st _; rfl
  | cons x ds ih =>
    intro st hok
    rcases hfx : f x st with ⟨st', r⟩
    have hr : r = none := by
      have := hok x (by simp) st
      rw [hfx] at this
      exact this
    subst hr
    have hrest := ih st' (fun y hy s0 => hok y (by simp [hy]) s0)
    have hfold : foldState f (x :: ds) st = foldState f ds st' := by
      simp [foldState, hfx]
    rw [iterOver, hfx, hfold]
    dsimp only
    rw [hrest]

theorem iterOver_fail {σ : Type} (f : Nat → σ → σ × Option Err) :
    ∀ (ds : List Nat) (st : σ) (e : Err), (iterOver f ds st).1 = some e →
      ∃ pre x rest, ds = pre ++ x :: rest ∧
        (iterOver f ds st).2.2 = pre ++ [x] ∧
        (f x (foldState f pre st)).2 = some e ∧
        (iterOver f ds st).2.1 = (f x (foldState f pre st)).1 ∧
        (pre ++ [x]).length ≤ ds.length := by
  intro ds
  induction ds with
  | nil => intro st e h; simp [iterOver] at h
  | cons y ds ih =>
    intro st e h
    rcases hfy : f y st with ⟨st', r⟩
    cases r with
    | some e' =>
      have hiter : iterOver f (y :: ds) st = (some e', st', [y]) := by
        rw [iterOver, hfy]
      rw [hiter] at h ⊢
      have he : e' = e := by
        simp only at h
        injection h
      subst he
      refine ⟨[], y, ds, by simp, by simp, ?_, ?_, by simp⟩
      · simp [foldState, hfy]
      · simp [foldState, hfy]
    | none =>
      have hiter : iterOver f (y :: ds) st =
          ((iterOver f ds st').1, (iterOver f ds st').2.1,
            y :: (iterOver f ds st').2.2) := by
        rw [iterOver, hfy]
      rw [hiter] at h ⊢
      simp only at h
      obtain ⟨pre, x, rest, hds, hvis, herr, hst, hlen⟩ := ih st' e h
      refine ⟨y :: pre, x, rest, by simp [hds], by simp [hvis], ?_, ?_, ?_⟩
      · have : foldState f (y :: pre) st = foldState f pre st' := by
          simp [foldState, hfy]
        rw [this]
        exact herr
      · have : foldState f (y :: pre) st = foldState f pre st' := by
          simp [foldState, hfy]
        rw [this]
        exact hst
      · simp only [List.cons_append, List.length_cons, List.length_append] at hlen ⊢
        omega

/-- C9: for both strategies, `iterate` with an everywhere-succeeding
callback visits every cached handle, applies the callback's effect to each
in turn, and returns nil; and whenever `iterate` returns an error, the
visited handles form a strict prefix of the cached handles ending at the
failing one, the returned error is exactly the one the callback produced
there, the effects on previously visited handles are retained (the final
callback state is the one the failing call produced), and the number of
visits is at most the number of cached handles. -/
theorem forEach_fail_fast {σ : Type} (k : Keeper)
    (f : Nat → σ → σ × Option Err) (st : σ) :
    ((∀ x ∈ Keeper.vals k, ∀ s0, (f x s0).2 = none) →
      Keeper.iterate k f st =
        (none, foldState f (Keeper.vals k) st, Keeper.vals k)) ∧
    (∀ e, (Keeper.iterate k f st).1 = some e →
      ∃ pre x rest, Keeper.vals k = pre ++ x :: rest ∧
        (Keeper.iterate k f st).2.2 = pre ++ [x] ∧
        (f x (foldState f pre st)).2 = some e ∧
        (Keeper.iterate k f st).2.1 = (f x (foldState f pre st)).1 ∧
        (pre ++ [x]).length ≤ (Keeper.vals k).length) :=
  ⟨iterOver_all_ok f (Keeper.vals k) st,
   fun e => iterOver_fail f (Keeper.vals k) st e⟩

theorem forEach_fail_fast_witness :
    Keeper.iterate (.regular [(⟨1, 1⟩, 10), (⟨2, 2⟩, 20), (⟨3, 3⟩, 30)])
      (fun _ s => (s + 1, none)) 0 = (none, 3, [10, 20, 30]) :=
  (forEach_fail_fast (.regular [(⟨1, 1⟩, 10), (⟨2, 2⟩, 20), (⟨3, 3⟩, 30)])
    (fun _ s => (s + 1, none)) 0).1 (fun _ _ _ => rfl)

end Tan
